import Mathlib

/-!
Verification development for unmkbootimg (src/src/unmkbootimg.c).

The C program disassembles an Android boot image: it reads and validates a
fixed header, derives the page-aligned slice geometry, extracts the kernel,
ramdisk and optional second-stage slices, and emits a rebuild script.

The definitions below are a shallow embedding of the relevant C functions:
  readHeader     -> validateHeader (plus readHeaderFromFile for the byte level)
  getSizeMap     -> getSizeMap
  getOffsetMap   -> getOffsetMap (uint32 arithmetic modelled with % 2^32)
  getOsVersion   -> getOsVersion
  getImageId     -> getImageId
  writeMakeScript-> writeMakeScriptChunks (list of fprintf outputs, in order)
  writeSlice     -> writeSlice (block-buffered copy loop)
  main loop      -> writtenDests / extractSlice

Byte sequences are `List Nat` (each entry a byte value), text is `List Char`.
-/

/-- The uint32 modulus 2^32; uint32_t arithmetic in the C source is modelled as Nat arithmetic
followed by `% UINT32_LIMIT` wherever a C expression can wrap. -/
def UINT32_LIMIT : Nat := 4294967296

/-- The 8 bytes of the BOOT_MAGIC literal "ANDROID!" (bootimg.h). -/
def BOOT_MAGIC_BYTES : List Nat := [0x41, 0x4E, 0x44, 0x52, 0x4F, 0x49, 0x44, 0x21]

/-- Modelled from the spec: bootimg.h is not under src/, so the header record
layout follows the field enumeration of the spec (8-byte magic; kernel_size,
kernel_addr; ramdisk_size, ramdisk_addr; second_size, second_addr; tags_addr;
page_size; 16-byte name; 512-byte cmdline; 32-byte id; 1024-byte
extra_cmdline; 32-bit os_version), giving
8 + 8*4 + 16 + 512 + 32 + 1024 + 4 = 1628 bytes for sizeof(boot_img_hdr). -/
def sizeofBootImgHdr : Nat := 1628

/-- Modelled from the spec: the boot_img_hdr record (bootimg.h is not under
src/). uint32_t fields are Nats (values < 2^32 in the C program); the
fixed-width byte arrays are byte lists. -/
structure boot_img_hdr where
  magic : List Nat
  kernel_size : Nat
  kernel_addr : Nat
  ramdisk_size : Nat
  ramdisk_addr : Nat
  second_size : Nat
  second_addr : Nat
  tags_addr : Nat
  page_size : Nat
  name : List Nat
  cmdline : List Nat
  id : List Nat
  extra_cmdline : List Nat
  os_version : Nat
  deriving DecidableEq, Repr

/-- Error taxonomy of the spec; every throwError in the C source is fatal and
is classified by the spec as a format, I/O or configuration error. -/
inductive UnmkError where
  | formatError (msg : String)
  | ioError (msg : String)
  | configError (msg : String)
  deriving DecidableEq, Repr

/-- True exactly on a formatError result. -/
def isFormatError {α : Type} : Except UnmkError α → Bool
  | .error (.formatError _) => true
  | _ => false

/-- True exactly on an ok result. -/
def isOk {α : Type} : Except UnmkError α → Bool
  | .ok _ => true
  | _ => false

/-- The validation half of readHeader (unmkbootimg.c lines 112-116): magic
must equal BOOT_MAGIC (strncmp over all 8 bytes, and "ANDROID!" contains no
NUL, so this is byte-for-byte equality), kernel_size and ramdisk_size must be
nonzero. Nothing else is checked. -/
def validateHeader (h : boot_img_hdr) : Except UnmkError boot_img_hdr :=
  if h.magic ≠ BOOT_MAGIC_BYTES then
    .error (.formatError "Invalid magic number at start of header")
  else if h.kernel_size = 0 then .error (.formatError "Invalid kernel_size")
  else if h.ramdisk_size = 0 then .error (.formatError "Invalid ramdisk_size")
  else .ok h

/-- getSizeMap (lines 125-139): the unrounded sizes of the four slices, in
slice order header, kernel, ramdisk, second (the switch unrolled). -/
def getSizeMap (h : boot_img_hdr) : List Nat :=
  [sizeofBootImgHdr, h.kernel_size, h.ramdisk_size, h.second_size]

/-- The per-slice rounding step of getOffsetMap (line 159):
currSliceSize = ((currSliceSize + pageSize - 1) / pageSize) * pageSize
in uint32_t arithmetic. For p >= 1 the C sum-then-decrement never goes below
zero, so Nat subtraction agrees with the unsigned value; the quotient times p
is at most the (already reduced) dividend, so the final `%` is a no-op kept
only for bit-width fidelity. -/
def roundUpToPageC (x p : Nat) : Nat :=
  ((x + p - 1) % UINT32_LIMIT) / p * p % UINT32_LIMIT

/-- getOffsetMap (lines 147-163) with the loop unrolled: offsetMap[0] = 0 and
offsetMap[i+1] = offsetMap[i] + rounded size of slice i, all in uint32_t. -/
def getOffsetMap (h : boot_img_hdr) : List Nat :=
  let p := h.page_size
  let s := getSizeMap h
  let o1 := (0 + roundUpToPageC (s.getD 0 0) p) % UINT32_LIMIT
  let o2 := (o1 + roundUpToPageC (s.getD 1 0) p) % UINT32_LIMIT
  let o3 := (o2 + roundUpToPageC (s.getD 2 0) p) % UINT32_LIMIT
  [0, o1, o2, o3]

/-- The rounding formula as the spec states it, in exact arithmetic:
roundUpToPage(x, p) = floor((x + p - 1) / p) * p. Used to compare the
implementation's uint32 computation against the spec's claims. -/
def roundUpToPage (x p : Nat) : Nat := (x + p - 1) / p * p

/-- The copy loop of writeSlice (lines 325-350). `fuel` counts the remaining
loop iterations (the C loop runs for i < byteCount / blockSize + 1), `i` is
the loop index, `acc` the bytes written to the destination so far. Each
iteration computes quota = min(byteCount - i*blockSize, blockSize), stops when
the quota is zero, and otherwise freads quota bytes from source position
byteOffset + i*blockSize (the file position advances sequentially from the
initial fseek). A short read makes fread return 0 items, which the C code
turns into a fatal error: modelled as `none`. All loop arithmetic is size_t;
every value reached under the preconditions of the theorems below is bounded
by the source length, so exact Nat arithmetic coincides with it (Nat
subtraction matches the unsigned subtraction because i*blockSize never
exceeds byteCount inside the loop). -/
def writeSliceLoop (src : List Nat) (blockSize byteOffset byteCount : Nat) :
    Nat → Nat → List Nat → Option (List Nat)
  | 0, _, acc => some acc
  | fuel + 1, i, acc =>
    let quota :=
      if byteCount - i * blockSize < blockSize then byteCount - i * blockSize
      else blockSize
    if quota = 0 then some acc
    else if byteOffset + i * blockSize + quota ≤ src.length then
      writeSliceLoop src blockSize byteOffset byteCount fuel (i + 1)
        (acc ++ (src.drop (byteOffset + i * blockSize)).take quota)
    else none

/-- writeSlice (lines 306-353): seek to byteOffset, then copy byteCount bytes
to the (rewound) destination in blockSize chunks; returns the destination's
bytes, or none on a short read. -/
def writeSlice (src : List Nat) (blockSize byteOffset byteCount : Nat) :
    Option (List Nat) :=
  writeSliceLoop src blockSize byteOffset byteCount (byteCount / blockSize + 1) 0 []

theorem writeSliceLoop_eq (src : List Nat) (bs off cnt : Nat) (hbs : 0 < bs)
    (hsrc : off + cnt ≤ src.length) :
    ∀ fuel i acc, cnt - i * bs ≤ fuel * bs →
      writeSliceLoop src bs off cnt fuel i acc =
        some (acc ++ (src.drop (off + i * bs)).take (cnt - i * bs)) := by
  intro fuel
  induction fuel with
  | zero =>
    intro i acc hf
    have h0 : cnt - i * bs = 0 := by omega
    simp [writeSliceLoop, h0]
  | succ fuel ih =>
    intro i acc hf
    have hsucc : (i + 1) * bs = i * bs + bs := by ring
    by_cases hrem : cnt - i * bs = 0
    · have hq : (if cnt - i * bs < bs then cnt - i * bs else bs) = 0 := by
        rw [hrem]; simp [hbs]
      simp [writeSliceLoop, hq, hrem]
    · have hibs : i * bs < cnt := by omega
      by_cases hlt : cnt - i * bs < bs
      · -- final, short chunk
        have hq : (if cnt - i * bs < bs then cnt - i * bs else bs)
            = cnt - i * bs := by simp [hlt]
        have hbound : off + i * bs + (cnt - i * bs) ≤ src.length := by omega
        have hrem1 : cnt - (i + 1) * bs = 0 := by omega
        have hrec := ih (i + 1)
          (acc ++ (src.drop (off + i * bs)).take (cnt - i * bs)) (by omega)
        rw [hrem1] at hrec
        rw [writeSliceLoop]
        simp only [hq, if_neg hrem, if_pos hbound, hrec]
        simp
      · -- full block
        have hq : (if cnt - i * bs < bs then cnt - i * bs else bs) = bs := by
          simp [hlt]
        have hbsle : bs ≤ cnt - i * bs := by omega
        have hbound : off + i * bs + bs ≤ src.length := by omega
        have hqne : ¬ bs = 0 := by omega
        have hfuel1 : cnt - (i + 1) * bs ≤ fuel * bs := by
          have h2 : fuel * bs + bs = (fuel + 1) * bs := by ring
          omega
        have hrec := ih (i + 1)
          (acc ++ (src.drop (off + i * bs)).take bs) hfuel1
        rw [writeSliceLoop]
        simp only [hq, if_neg hqne, if_pos hbound, hrec]
        rw [List.append_assoc]
        have hdrop : List.drop (off + (i + 1) * bs) src
            = List.drop bs (List.drop (off + i * bs) src) := by
          rw [List.drop_drop]; congr 1; omega
        have htake : List.take bs (List.drop (off + i * bs) src) ++
            List.take (cnt - (i + 1) * bs)
              (List.drop (off + (i + 1) * bs) src)
            = List.take (cnt - i * bs) (List.drop (off + i * bs) src) := by
          rw [hdrop, ← List.take_add]
          congr 1
          omega
        rw [htake]

/-- Helper shared by the slice-copy claims: under the stated preconditions the
copy loop yields exactly the requested byte range of the source. -/
theorem writeSlice_eq (src : List Nat) (bs off cnt : Nat) (hbs : 0 < bs)
    (hsrc : off + cnt ≤ src.length) :
    writeSlice src bs off cnt = some ((src.drop off).take cnt) := by
  have hm := Nat.div_add_mod cnt bs
  have hmod := Nat.mod_lt cnt hbs
  have hfuel : cnt - 0 * bs ≤ (cnt / bs + 1) * bs := by
    have h1 : (cnt / bs + 1) * bs = cnt / bs * bs + bs := by ring
    have h2 : bs * (cnt / bs) = cnt / bs * bs := by ring
    omega
  have := writeSliceLoop_eq src bs off cnt hbs hsrc (cnt / bs + 1) 0 [] hfuel
  simpa [writeSlice] using this

/-- C1: for every source byte sequence, block size blockSize > 0, offset and
count with the source holding at least byteOffset + byteCount bytes, writeSlice
transfers exactly byteCount bytes: the destination's bytes equal
source[byteOffset, byteOffset+byteCount) byte-for-byte (for every blockSize,
hence in particular for sub-block, exact-block and multi-block transfers; the
final chunk may be shorter than blockSize). -/
theorem writeSlice_copies_exact_range (src : List Nat)
    (blockSize byteOffset byteCount : Nat) (hbs : 0 < blockSize)
    (hsrc : byteOffset + byteCount ≤ src.length) :
    writeSlice src blockSize byteOffset byteCount =
      some ((src.drop byteOffset).take byteCount) ∧
    ((src.drop byteOffset).take byteCount).length = byteCount := by
  refine ⟨writeSlice_eq src blockSize byteOffset byteCount hbs hsrc, ?_⟩
  simp [List.length_take, List.length_drop]
  omega

/-- Witness for C1: a concrete 10-byte source, blockSize 3, offset 2,
count 5 (multi-block transfer with a short final chunk). -/
theorem writeSlice_copies_exact_range_witness :
    writeSlice [10, 11, 12, 13, 14, 15, 16, 17, 18, 19] 3 2 5 =
      some (([10, 11, 12, 13, 14, 15, 16, 17, 18, 19].drop 2).take 5) ∧
    (([10, 11, 12, 13, 14, 15, 16, 17, 18, 19].drop 2).take 5).length = 5 :=
  writeSlice_copies_exact_range [10, 11, 12, 13, 14, 15, 16, 17, 18, 19] 3 2 5
    (by decide) (by decide)

/-- A header whose kernel_size makes the uint32 offset accumulation wrap:
page_size = 2048 and kernel_size = 2^32 - 2048, so the ramdisk offset
2048 + roundUpToPage(kernel_size) overflows to 0. -/
def hdrWrap : boot_img_hdr :=
  { magic := BOOT_MAGIC_BYTES, kernel_size := 4294965248, kernel_addr := 0,
    ramdisk_size := 1, ramdisk_addr := 0, second_size := 0, second_addr := 0,
    tags_addr := 0, page_size := 2048, name := [], cmdline := [], id := [],
    extra_cmdline := [], os_version := 0 }


/-- Counterexample for C2: for hdrWrap (page_size = 2048 > 0) the computed
offset map is [0, 2048, 0, 2048]: the ramdisk offset is NOT
offset[1] + roundUpToPage(kernel_size, page_size), and the offsets are not
non-decreasing, because the uint32 addition wraps. -/
theorem getOffsetMap_overflow_counterexample :
    0 < hdrWrap.page_size ∧
    (getOffsetMap hdrWrap).getD 2 0 ≠
      (getOffsetMap hdrWrap).getD 1 0 +
        roundUpToPage ((getSizeMap hdrWrap).getD 1 0) hdrWrap.page_size ∧
    ¬ List.Chain' (· ≤ ·) (getOffsetMap hdrWrap) := by
  have hmap : getOffsetMap hdrWrap = [0, 2048, 0, 2048] := by decide
  refine ⟨by decide, by rw [hmap]; decide, ?_⟩
  rw [hmap]
  simp [List.chain'_cons]

theorem roundUpToPageC_eq_spec (x p : Nat) (hx : x + p - 1 < UINT32_LIMIT) :
    roundUpToPageC x p = roundUpToPage x p := by
  unfold roundUpToPageC roundUpToPage
  rw [Nat.mod_eq_of_lt hx]
  have hle : (x + p - 1) / p * p ≤ x + p - 1 := Nat.div_mul_le_self _ _
  exact Nat.mod_eq_of_lt (lt_of_le_of_lt hle hx)

/-- C2 (amended): for every header whose page_size is positive and whose
slice-size roundings do not overflow uint32 (each sizes[i] + page_size - 1
fits, and the page-rounded sizes sum below 2^32), getOffsetMap returns
[0, r0, r0 + r1, r0 + r1 + r2] with ri = roundUpToPage(sizes[i], page_size)
and sizes = {header-record size, kernel_size, ramdisk_size}; consequently the
offsets are non-decreasing and each offset is a multiple of page_size. (The
unamended claim, quantified over all headers, fails by
getOffsetMap_overflow_counterexample.) -/
theorem getOffsetMap_spec (h : boot_img_hdr) (hp : 0 < h.page_size)
    (h0 : sizeofBootImgHdr + h.page_size - 1 < UINT32_LIMIT)
    (h1 : h.kernel_size + h.page_size - 1 < UINT32_LIMIT)
    (h2 : h.ramdisk_size + h.page_size - 1 < UINT32_LIMIT)
    (hsum : roundUpToPage sizeofBootImgHdr h.page_size
        + roundUpToPage h.kernel_size h.page_size
        + roundUpToPage h.ramdisk_size h.page_size < UINT32_LIMIT) :
    getOffsetMap h =
      [0,
       roundUpToPage sizeofBootImgHdr h.page_size,
       roundUpToPage sizeofBootImgHdr h.page_size
         + roundUpToPage h.kernel_size h.page_size,
       roundUpToPage sizeofBootImgHdr h.page_size
         + roundUpToPage h.kernel_size h.page_size
         + roundUpToPage h.ramdisk_size h.page_size] ∧
    List.Chain' (· ≤ ·) (getOffsetMap h) ∧
    ∀ o ∈ getOffsetMap h, h.page_size ∣ o := by
  have e0 := roundUpToPageC_eq_spec sizeofBootImgHdr h.page_size h0
  have e1 := roundUpToPageC_eq_spec h.kernel_size h.page_size h1
  have e2 := roundUpToPageC_eq_spec h.ramdisk_size h.page_size h2
  have hunfold : getOffsetMap h =
      [0,
       (0 + roundUpToPageC sizeofBootImgHdr h.page_size) % UINT32_LIMIT,
       ((0 + roundUpToPageC sizeofBootImgHdr h.page_size) % UINT32_LIMIT
         + roundUpToPageC h.kernel_size h.page_size) % UINT32_LIMIT,
       (((0 + roundUpToPageC sizeofBootImgHdr h.page_size) % UINT32_LIMIT
         + roundUpToPageC h.kernel_size h.page_size) % UINT32_LIMIT
         + roundUpToPageC h.ramdisk_size h.page_size) % UINT32_LIMIT] := rfl
  have hmap : getOffsetMap h =
      [0,
       roundUpToPage sizeofBootImgHdr h.page_size,
       roundUpToPage sizeofBootImgHdr h.page_size
         + roundUpToPage h.kernel_size h.page_size,
       roundUpToPage sizeofBootImgHdr h.page_size
         + roundUpToPage h.kernel_size h.page_size
         + roundUpToPage h.ramdisk_size h.page_size] := by
    rw [hunfold, e0, e1, e2, Nat.zero_add]
    rw [Nat.mod_eq_of_lt (by omega)]
    rw [Nat.mod_eq_of_lt (by omega)]
    rw [Nat.mod_eq_of_lt (by omega)]
  refine ⟨hmap, ?_, ?_⟩
  · rw [hmap]
    simp only [List.chain'_cons, List.chain'_singleton, and_true]
    omega
  · intro o ho
    rw [hmap] at ho
    have d0 : h.page_size ∣ roundUpToPage sizeofBootImgHdr h.page_size := by
      unfold roundUpToPage; exact dvd_mul_left _ _
    have d1 : h.page_size ∣ roundUpToPage h.kernel_size h.page_size := by
      unfold roundUpToPage; exact dvd_mul_left _ _
    have d2 : h.page_size ∣ roundUpToPage h.ramdisk_size h.page_size := by
      unfold roundUpToPage; exact dvd_mul_left _ _
    simp only [List.mem_cons, List.not_mem_nil, or_false] at ho
    rcases ho with rfl | rfl | rfl | rfl
    · exact Dvd.intro 0 rfl
    · exact d0
    · exact Nat.dvd_add d0 d1
    · exact Nat.dvd_add (Nat.dvd_add d0 d1) d2

/-- The end-to-end header of the spec's testable-properties section:
page_size 2048, kernel_size 100, ramdisk_size 3000, second_size 0. -/
def hdrScenario : boot_img_hdr :=
  { magic := BOOT_MAGIC_BYTES, kernel_size := 100, kernel_addr := 0,
    ramdisk_size := 3000, ramdisk_addr := 0, second_size := 0,
    second_addr := 0, tags_addr := 0, page_size := 2048, name := [],
    cmdline := [], id := [], extra_cmdline := [], os_version := 0 }

/-- Witness for C2 (amended): the spec's scenario header satisfies every
hypothesis of getOffsetMap_spec. -/
theorem getOffsetMap_spec_witness :
    getOffsetMap hdrScenario =
      [0,
       roundUpToPage sizeofBootImgHdr hdrScenario.page_size,
       roundUpToPage sizeofBootImgHdr hdrScenario.page_size
         + roundUpToPage hdrScenario.kernel_size hdrScenario.page_size,
       roundUpToPage sizeofBootImgHdr hdrScenario.page_size
         + roundUpToPage hdrScenario.kernel_size hdrScenario.page_size
         + roundUpToPage hdrScenario.ramdisk_size hdrScenario.page_size] ∧
    List.Chain' (· ≤ ·) (getOffsetMap hdrScenario) ∧
    ∀ o ∈ getOffsetMap hdrScenario, hdrScenario.page_size ∣ o :=
  getOffsetMap_spec hdrScenario (by decide) (by decide) (by decide)
    (by decide) (by decide)

/-- The destination-selection part of the main extraction loop (lines
436-453): for dest in {header-script, kernel, ramdisk, second}, a slice whose
sizeMap entry is 0 is skipped and produces no destination file. -/
def writtenDests (h : boot_img_hdr) : List Nat :=
  (List.range 4).filter (fun d => (getSizeMap h).getD d 0 != 0)

/-- C3: readHeader fails with a FormatError exactly when the magic bytes
differ from "ANDROID!", kernel_size = 0, or ramdisk_size = 0; a header that
passes those checks with second_size = 0 is accepted, and the second-stage
slice (index 3) is then silently skipped by the extraction loop, so no
destination file is produced for it. -/
theorem readHeader_rejection_spec (h : boot_img_hdr) :
    (isFormatError (validateHeader h) = true ↔
      (h.magic ≠ BOOT_MAGIC_BYTES ∨ h.kernel_size = 0 ∨ h.ramdisk_size = 0)) ∧
    (h.second_size = 0 → 3 ∉ writtenDests h) ∧
    (h.magic = BOOT_MAGIC_BYTES → h.kernel_size ≠ 0 → h.ramdisk_size ≠ 0 →
      h.second_size = 0 → validateHeader h = .ok h) := by
  refine ⟨?_, ?_, ?_⟩
  · unfold validateHeader
    split_ifs with hm hk hr
    · simp [isFormatError, hm]
    · simp [isFormatError, hk]
    · simp [isFormatError, hr]
    · simp [isFormatError, hm, hk, hr]
  · intro hs
    simp [writtenDests, List.mem_filter, getSizeMap, hs]
  · intro hm hk hr _
    unfold validateHeader
    simp [hm, hk, hr]

/-- Witness for C3: a concrete valid header with second_size = 0 is accepted
and the second slice is not among the written destinations; a header with bad
magic is a FormatError. -/
theorem readHeader_rejection_spec_witness :
    (validateHeader hdrScenario = .ok hdrScenario ∧ 3 ∉ writtenDests hdrScenario) ∧
    isFormatError (validateHeader { hdrScenario with magic := [0] }) = true :=
  ⟨⟨(readHeader_rejection_spec hdrScenario).2.2 (by decide) (by decide)
      (by decide) (by decide),
    (readHeader_rejection_spec hdrScenario).2.1 (by decide)⟩,
   ((readHeader_rejection_spec { hdrScenario with magic := [0] }).1).mpr
      (by decide)⟩

/-- A header that passes every readHeader check but has page_size = 0. -/
def hdrZeroPage : boot_img_hdr :=
  { magic := BOOT_MAGIC_BYTES, kernel_size := 1, kernel_addr := 0,
    ramdisk_size := 1, ramdisk_addr := 0, second_size := 0, second_addr := 0,
    tags_addr := 0, page_size := 0, name := [], cmdline := [], id := [],
    extra_cmdline := [], os_version := 0 }

/-- C7 (code bug demonstration): readHeader performs no page_size validation,
so a header with page_size = 0 is accepted by header validation and reaches
getOffsetMap, whose rounding expression then divides by page_size = 0 (in C
this is undefined behaviour, typically SIGFPE; no ConfigError is ever
raised). The spec requires a ConfigError during header validation instead. -/
theorem readHeader_accepts_zero_page_size :
    hdrZeroPage.page_size = 0 ∧ validateHeader hdrZeroPage = .ok hdrZeroPage :=
  ⟨rfl, rfl⟩

/-- Little-endian 32-bit field at byte offset `o` of a byte buffer. -/
def le32 (b : List Nat) (o : Nat) : Nat :=
  b.getD o 0 + 256 * b.getD (o + 1) 0 + 65536 * b.getD (o + 2) 0
    + 16777216 * b.getD (o + 3) 0

/-- Modelled from the spec: bootimg.h is not under src/, so the field offsets
follow the spec's field enumeration (see sizeofBootImgHdr). Decodes a raw
header-sized buffer into the boot_img_hdr record. -/
def decodeHeaderBytes (buf : List Nat) : boot_img_hdr :=
  { magic := buf.take 8,
    kernel_size := le32 buf 8, kernel_addr := le32 buf 12,
    ramdisk_size := le32 buf 16, ramdisk_addr := le32 buf 20,
    second_size := le32 buf 24, second_addr := le32 buf 28,
    tags_addr := le32 buf 32, page_size := le32 buf 36,
    name := (buf.drop 40).take 16,
    cmdline := (buf.drop 56).take 512,
    id := (buf.drop 568).take 32,
    extra_cmdline := (buf.drop 600).take 1024,
    os_version := le32 buf 1624 }

/-- readHeader at the byte level (lines 103-117). fread copies
min(input length, sizeof(boot_img_hdr)) bytes into the caller's buffer; on a
truncated input it returns 0 items and sets the stream's EOF flag but does
NOT touch errno, so the `if(errno)` check after fread cannot fire and
execution continues with the rest of the uninitialized stack buffer
(modelled by the `stack` parameter). Validation then runs on that buffer. -/
def readHeaderFromFile (input stack : List Nat) :
    Except UnmkError boot_img_hdr :=
  let buf := input.take sizeofBootImgHdr
    ++ stack.drop (min input.length sizeofBootImgHdr)
  validateHeader (decodeHeaderBytes buf)

/-- A 20-byte truncated boot image: the magic, kernel_size = 1, kernel_addr
and ramdisk_size = 1 fields are present, then the file ends. -/
def truncatedInput : List Nat :=
  BOOT_MAGIC_BYTES ++ [1, 0, 0, 0] ++ [0, 0, 0, 0] ++ [1, 0, 0, 0]

/-- C6 (code bug demonstration): truncatedInput is shorter than the fixed
header size, yet readHeader accepts it — whatever uninitialized bytes follow
the 20 read bytes — because the errno check misses end-of-file. The spec
requires a FormatError and no partial-header result. -/
theorem readHeader_accepts_truncated_input :
    truncatedInput.length < sizeofBootImgHdr ∧
    ∀ stack : List Nat, isOk (readHeaderFromFile truncatedInput stack) = true := by
  refine ⟨by decide, fun stack => ?_⟩
  rfl

/-- Counterexample for C8: with x = 2^32 - 3 and p = 3 (both uint32 values,
p > 0), the implementation's 32-bit formula gives
roundUpToPage(x, 3) = 2^32 - 1 but rounding that value again wraps
(2^32 - 1) + 2 to 1 and yields 0, so idempotence fails. -/
theorem roundUpToPageC_not_idempotent :
    0 < 3 ∧ 4294967293 < UINT32_LIMIT ∧
    roundUpToPageC (roundUpToPageC 4294967293 3) 3 ≠ roundUpToPageC 4294967293 3 := by
  refine ⟨by decide, by decide, by decide⟩

/-- C8 (amended): the implementation's 32-bit rounding formula is idempotent
for every size x and page size p > 0 such that the arithmetic does not wrap,
i.e. x + 2*(p - 1) < 2^32 (which keeps both the first and the second
rounding below 2^32). The unamended claim, over all uint32 inputs, fails by
roundUpToPageC_not_idempotent. -/
theorem roundUpToPageC_idempotent (x p : Nat) (hp : 0 < p)
    (hx : x + 2 * (p - 1) < UINT32_LIMIT) :
    roundUpToPageC (roundUpToPageC x p) p = roundUpToPageC x p := by
  have e1 : roundUpToPageC x p = roundUpToPage x p :=
    roundUpToPageC_eq_spec x p (by omega)
  have hle : (x + p - 1) / p * p ≤ x + p - 1 := Nat.div_mul_le_self _ _
  have hrle : roundUpToPage x p ≤ x + p - 1 := hle
  have e2 : roundUpToPageC (roundUpToPage x p) p
      = roundUpToPage (roundUpToPage x p) p :=
    roundUpToPageC_eq_spec (roundUpToPage x p) p (by omega)
  rw [e1, e2]
  unfold roundUpToPage
  have hq : ((x + p - 1) / p * p + p - 1) / p = (x + p - 1) / p := by
    have hsub : (x + p - 1) / p * p + p - 1 = p - 1 + (x + p - 1) / p * p := by
      omega
    rw [hsub, Nat.add_mul_div_right _ _ hp, Nat.div_eq_of_lt (by omega),
      Nat.zero_add]
  rw [hq]

/-- Witness for C8 (amended): x = 100, p = 2048 satisfies the no-overflow
bound and rounding twice equals rounding once. -/
theorem roundUpToPageC_idempotent_witness :
    roundUpToPageC (roundUpToPageC 100 2048) 2048 = roundUpToPageC 100 2048 :=
  roundUpToPageC_idempotent 100 2048 (by decide) (by decide)

/-- Decimal rendering of a Nat, as printf %u renders an in-range value. -/
def decRepr (n : Nat) : List Char := (Nat.repr n).data

/-- printf %0wu: decimal rendering left-padded with zeros to minimum width w
(never truncating). -/
def zeroPad (w n : Nat) : List Char :=
  List.replicate (w - (decRepr n).length) '0' ++ decRepr n

/-- snprintf(buf, size, ...): at most size - 1 characters are stored. -/
def snprintfTrunc (size : Nat) (s : List Char) : List Char := s.take (size - 1)

/-- getOsVersion (lines 166-188): decodes the packed os_version field into
the version string "a.b.c" (snprintf with buffer size 12) and the patch-level
string "yyyy-mm-dd" (snprintf with size 11), with day fixed at 1. -/
def getOsVersion (osVersion : Nat) : List Char × List Char :=
  let rawVersion := osVersion >>> 11
  let rawPatchLevel := osVersion &&& 2047
  let a := (rawVersion >>> 14) &&& 127
  let b := (rawVersion >>> 7) &&& 127
  let c := rawVersion &&& 127
  let y := (rawPatchLevel >>> 4) &&& 127
  let m := rawPatchLevel &&& 15
  let d := 1
  (snprintfTrunc 12 (decRepr a ++ '.' :: decRepr b ++ '.' :: decRepr c),
   snprintfTrunc 11
     (zeroPad 4 (2000 + y) ++ '-' :: zeroPad 2 m ++ '-' :: zeroPad 2 d))

theorem decRepr_length_le_three : ∀ n < 128, (decRepr n).length ≤ 3 := by decide

theorem decRepr_length_2000 : ∀ y < 128, (decRepr (2000 + y)).length = 4 := by
  decide

theorem decRepr_length_le_two : ∀ m < 16, (decRepr m).length ≤ 2 := by decide

/-- C4: getOsVersion is bit-exact per the spec formula. With
rawVersion = raw >> 11 and rawPatch = raw & 0x7FF, the version string is
"{major}.{minor}.{patch}" for major = (rawVersion >> 14) & 0x7F,
minor = (rawVersion >> 7) & 0x7F, patch = rawVersion & 0x7F, rendered
without truncation, and the patch-level string is
"{2000+year, 4-digit}-{month, 2-digit}-01" for year = (rawPatch >> 4) & 0x7F
and month = rawPatch & 0xF, with the day constant 1. -/
theorem getOsVersion_bitexact (raw : Nat) (hraw : raw < UINT32_LIMIT) :
    getOsVersion raw =
      (decRepr ((raw >>> 11 >>> 14) &&& 127)
         ++ '.' :: decRepr ((raw >>> 11 >>> 7) &&& 127)
         ++ '.' :: decRepr ((raw >>> 11) &&& 127),
       zeroPad 4 (2000 + (((raw &&& 2047) >>> 4) &&& 127))
         ++ '-' :: zeroPad 2 ((raw &&& 2047) &&& 15)
         ++ '-' :: ['0', '1']) := by
  have ha : (raw >>> 11 >>> 14) &&& 127 < 128 :=
    Nat.lt_succ_of_le Nat.and_le_right
  have hb : (raw >>> 11 >>> 7) &&& 127 < 128 :=
    Nat.lt_succ_of_le Nat.and_le_right
  have hc : (raw >>> 11) &&& 127 < 128 := Nat.lt_succ_of_le Nat.and_le_right
  have hy : ((raw &&& 2047) >>> 4) &&& 127 < 128 :=
    Nat.lt_succ_of_le Nat.and_le_right
  have hm : (raw &&& 2047) &&& 15 < 16 := Nat.lt_succ_of_le Nat.and_le_right
  have hd : zeroPad 2 1 = ['0', '1'] := rfl
  unfold getOsVersion
  simp only [snprintfTrunc, Prod.mk.injEq]
  constructor
  · apply List.take_of_length_le
    have h3a := decRepr_length_le_three _ ha
    have h3b := decRepr_length_le_three _ hb
    have h3c := decRepr_length_le_three _ hc
    simp only [List.length_append, List.length_cons]
    omega
  · rw [hd]
    apply List.take_of_length_le
    have l1 : (zeroPad 4 (2000 + (((raw &&& 2047) >>> 4) &&& 127))).length = 4 := by
      have e4 := decRepr_length_2000 _ hy
      simp [zeroPad, e4]
    have l2 : (zeroPad 2 ((raw &&& 2047) &&& 15)).length = 2 := by
      have e2 := decRepr_length_le_two _ hm
      simp [zeroPad]
      omega
    simp only [List.length_append, List.length_cons, List.length_nil, l1, l2]
    omega

/-- Witness for C4: raw = 0 decodes to major = minor = patch = 0, year = 0,
month = 0, giving version "0.0.0" and patch level "2000-00-01". -/
theorem getOsVersion_bitexact_witness :
    getOsVersion 0 = (['0', '.', '0', '.', '0'],
      ['2', '0', '0', '0', '-', '0', '0', '-', '0', '1']) :=
  (getOsVersion_bitexact 0 (by decide)).trans (by decide)

/-- printf %02x of a byte value: exactly two lowercase hex digits (the id
array elements are uint8_t, so b < 256 and b / 16 is a single digit). -/
def hexByte (b : Nat) : List Char := [Nat.digitChar (b / 16), Nat.digitChar (b % 16)]


/-- The separator printed after byte i in the non-sha1 branch (lines
218-220): nothing after the final byte, a space after each 4-byte group, a
colon within a group. -/
def groupSep (i : Nat) : List Char :=
  if i = 31 then [] else if (i + 1) % 4 = 0 then [' '] else [':']

/-- The rendering loop of getImageId (lines 208-228). IMAGE_ID_SIZE = 97, so
the loop guard is i < 32 and j < 96, and each snprintf(imageId + j,
IMAGE_ID_SIZE - j, ...) stores at most 96 - j characters while j advances by
the full would-be length (snprintf's return value). In the sha1 case the
loop appends the " (sha1)" marker at i = 20 and breaks; otherwise the
separator after byte i is groupSep i. `fuel` counts the remaining iterations
(32 from the start). On the 32-byte domain no snprintf ever truncates: j
peaks at 47 (sha1) or 95 (grouped). -/
def getImageIdLoop (id : List Nat) (sha1 : Bool) :
    Nat → Nat → Nat → List Char → List Char
  | 0, _, _, acc => acc
  | fuel + 1, i, j, acc =>
    if i < 32 ∧ j < 96 then
      if sha1 ∧ 20 ≤ i then acc ++ (" (sha1)".data.take (96 - j))
      else
        let sep : List Char := if sha1 then [] else groupSep i
        getImageIdLoop id sha1 fuel (i + 1)
          (j + (hexByte (id.getD i 0) ++ sep).length)
          (acc ++ (hexByte (id.getD i 0) ++ sep).take (96 - j))
    else acc

/-- getImageId (lines 191-229): isSha1 is true unless some byte of id[20..32)
is nonzero (id[i] > 0 on a Nat is id[i] ≠ 0), then the loop renders the
identifier. The unused noSeparator parameter of the C function is dropped. -/
def getImageId (id : List Nat) : List Char :=
  let isSha1 := (id.drop 20).all (fun b => b == 0)
  getImageIdLoop id isSha1 32 0 0 []

/-- The sha1 branch as the spec describes it, with the marker amended to the
literal " (sha1)" that the code actually prints: id[0..20) as contiguous
lowercase hex byte pairs followed by the marker. -/
def sha1Render (id : List Nat) : List Char :=
  ((id.take 20).map hexByte).flatten ++ " (sha1)".data

/-- The grouped form as the spec describes it: all 32 bytes as hex pairs,
grouped by 4 bytes, ':' within a group, ' ' between groups, no trailing
separator. -/
def groupedRender (id : List Nat) : List Char :=
  ((List.range 32).map (fun i => hexByte (id.getD i 0) ++ groupSep i)).flatten

/-- Counterexample for C5: for the all-zero 32-byte id the trailing 12 bytes
are all zero (the sha1 branch is taken), yet the output is not the hex of
id[0..20) followed by the claimed literal " sha1" — the code's marker is
" (sha1)". -/
theorem getImageId_sha1_marker_counterexample :
    ((List.replicate 32 0).drop 20).all (fun b => b == 0) = true ∧
    getImageId (List.replicate 32 0) ≠
      (((List.replicate 32 0).take 20).map hexByte).flatten ++ " sha1".data :=
  ⟨by decide, by decide⟩

theorem getImageIdLoop_grouped (id : List Nat) :
    ∀ n i j acc, i + n = 32 → j = 3 * i →
      getImageIdLoop id false n i j acc =
        acc ++ ((List.range' i n).map
          (fun k => hexByte (id.getD k 0) ++ groupSep k)).flatten := by
  intro n
  induction n with
  | zero =>
    intro i j acc hi hj
    simp [getImageIdLoop]
  | succ n ih =>
    intro i j acc hi hj
    subst hj
    have hi32 : i < 32 := by omega
    have hj96 : 3 * i < 96 := by omega
    rw [getImageIdLoop]
    rw [if_pos (⟨hi32, hj96⟩ : i < 32 ∧ 3 * i < 96)]
    rw [if_neg (show ¬((false : Bool) = true ∧ 20 ≤ i) by simp)]
    rcases Nat.lt_or_ge i 31 with h31 | h31
    · -- a byte followed by a one-character separator
      have hsep : (groupSep i).length = 1 := by
        rw [groupSep, if_neg (by omega)]
        split_ifs <;> rfl
      have hchunk : (hexByte (id.getD i 0) ++ groupSep i).length = 3 := by
        simp [hexByte, List.length_append, hsep]
      have htake : (hexByte (id.getD i 0) ++ groupSep i).take (96 - 3 * i)
          = hexByte (id.getD i 0) ++ groupSep i :=
        List.take_of_length_le (by rw [hchunk]; omega)
      simp only [Bool.false_eq_true, if_false, htake, hchunk]
      have hj3 : 3 * i + 3 = 3 * (i + 1) := by ring
      rw [hj3, ih (i + 1) (3 * (i + 1)) _ (by omega) rfl]
      rw [List.append_assoc]
      congr 1
    · -- the final byte, i = 31, with no separator
      have hieq : i = 31 := by omega
      subst hieq
      have hneq : n = 0 := by omega
      subst hneq
      have hg : groupSep 31 = [] := rfl
      simp only [Bool.false_eq_true, if_false, hg, List.append_nil]
      rw [List.take_of_length_le
        (by simp [hexByte] : (hexByte (id.getD 31 0)).length ≤ 96 - 3 * 31)]
      rw [getImageIdLoop]
      rw [show List.range' 31 (0 + 1) = [31] from rfl]
      simp [hg]

theorem getImageIdLoop_sha1 (id : List Nat) :
    ∀ n i j acc, i + n = 32 → i ≤ 20 → j = 2 * i →
      getImageIdLoop id true n i j acc =
        acc ++ ((List.range' i (20 - i)).map
          (fun k => hexByte (id.getD k 0))).flatten ++ " (sha1)".data := by
  intro n
  induction n with
  | zero =>
    intro i j acc hi hle hj
    omega
  | succ n ih =>
    intro i j acc hi hle hj
    subst hj
    have hi32 : i < 32 := by omega
    have hj96 : 2 * i < 96 := by omega
    rw [getImageIdLoop]
    rw [if_pos (⟨hi32, hj96⟩ : i < 32 ∧ 2 * i < 96)]
    rcases Nat.lt_or_ge i 20 with h20 | h20
    · -- a hex byte pair, no separator
      rw [if_neg (fun hcon => absurd hcon.2 (by omega))]
      have htake : (hexByte (id.getD i 0) ++ ([] : List Char)).take (96 - 2 * i)
          = hexByte (id.getD i 0) ++ ([] : List Char) :=
        List.take_of_length_le (by simp [hexByte]; omega)
      have hlen : (hexByte (id.getD i 0) ++ ([] : List Char)).length = 2 := by
        simp [hexByte]
      simp only [if_pos (show (true : Bool) = true from rfl), eq_self_iff_true, if_true, htake, hlen]
      have hj2 : 2 * i + 2 = 2 * (i + 1) := by ring
      rw [hj2, ih (i + 1) (2 * (i + 1)) _ (by omega) (by omega) rfl]
      have h20sub : 20 - i = (20 - (i + 1)) + 1 := by omega
      rw [h20sub, List.range'_succ]
      simp
    · -- i = 20: append the marker and stop
      have hieq : i = 20 := by omega
      subst hieq
      rw [if_pos (⟨rfl, by omega⟩ : (true : Bool) = true ∧ 20 ≤ 20)]
      rw [List.take_of_length_le (by decide : (" (sha1)".data).length ≤ 96 - 2 * 20)]
      simp

theorem range'_map_getD (id : List Nat) (n : Nat) (hn : n ≤ id.length) :
    (List.range' 0 n).map (fun k => id.getD k 0) = id.take n := by
  apply List.ext_getElem
  · simp [hn]
  · intro i h1 h2
    simp only [List.getElem_map, List.getElem_range', List.getElem_take]
    rw [List.getD_eq_getElem?_getD, List.getElem?_eq_getElem (by
      simp at h1
      omega)]
    simp

/-- C5 (amended): for every 32-byte id, getImageId renders the sha1 form —
id[0..20) as contiguous lowercase hex pairs followed by the literal " (sha1)"
marker (amended from the claimed " sha1") — when every byte of id[20..32) is
zero, and otherwise the grouped form: all 32 bytes as hex pairs grouped by 4,
':' within a group, ' ' between groups, and no separator after the final
byte. -/
theorem getImageId_spec (id : List Nat) (hlen : id.length = 32) :
    getImageId id =
      if (id.drop 20).all (fun b => b == 0) then sha1Render id
      else groupedRender id := by
  unfold getImageId
  rcases Bool.eq_false_or_eq_true ((id.drop 20).all (fun b => b == 0)) with hc | hc
  · rw [hc, if_pos rfl]
    show getImageIdLoop id true 32 0 0 [] = sha1Render id
    rw [getImageIdLoop_sha1 id 32 0 0 [] (by omega) (by omega) (by omega)]
    rw [sha1Render]
    rw [← range'_map_getD id 20 (by omega), List.map_map]
    rfl
  · rw [hc, if_neg (by simp)]
    show getImageIdLoop id false 32 0 0 [] = groupedRender id
    rw [getImageIdLoop_grouped id 32 0 0 [] (by omega) (by omega)]
    rw [groupedRender, List.range_eq_range']
    simp

/-- Witness for C5 (amended): getImageId on a concrete nonzero-tailed 32-byte
id takes the grouped branch of the amended statement. -/
theorem getImageId_spec_witness :
    getImageId (List.replicate 32 1) =
      if ((List.replicate 32 1).drop 20).all (fun b => b == 0)
      then sha1Render (List.replicate 32 1)
      else groupedRender (List.replicate 32 1) :=
  getImageId_spec (List.replicate 32 1) (by decide)

/-- printf %.*s with maximum field width n: prints at most n bytes of the
fixed-width field, stopping at the first NUL byte. -/
def cString (l : List Nat) (n : Nat) : List Char :=
  ((l.take n).takeWhile (fun b => b != 0)).map Char.ofNat

/-- printf %#x: "0" for zero, otherwise "0x" followed by lowercase hex
digits. -/
def hexAlt (n : Nat) : List Char :=
  if n = 0 then ['0'] else '0' :: 'x' :: Nat.toDigits 16 n

/-- The default dests array of main (lines 382-388). Only the script name
(index 0) and the new-boot name (index 4) can be overridden on the command
line; the kernel, ramdisk and secondary artifact names are fixed. -/
def dests : List (List Char) :=
  ["remkbootimg.sh".data, "kernel.img".data, "ramdisk.img".data,
   "secondary.img".data, "newboot.img".data]

/-- writeMakeScript (lines 265-304) as the ordered list of fprintf outputs,
with the default dests and an arbitrary mkbootimg command: shebang, command,
kernel flag, ramdisk flag, the second flag only when second_size is nonzero,
then cmdline (the concatenation of cmdline and extra_cmdline as one quoted
literal), base 0, the load addresses in %#x form, the decoded OS version and
patch level, tags address, board name, page size and output path. -/
def writeMakeScriptChunks (mkbootimgCmd : List Char) (h : boot_img_hdr) :
    List (List Char) :=
  ["#!/bin/sh\n".data,
   mkbootimgCmd ++ " \\\n".data,
   " --kernel \"".data ++ dests.getD 1 [] ++ "\" \\\n".data,
   " --ramdisk \"".data ++ dests.getD 2 [] ++ "\" \\\n".data]
  ++ (if h.second_size ≠ 0 then
        [" --second \"".data ++ dests.getD 3 [] ++ "\" \\\n".data] else [])
  ++ [" --cmdline \"".data ++ cString h.cmdline 512
        ++ cString h.extra_cmdline 1024 ++ "\"\\\n".data,
      " --base ".data ++ hexAlt 0 ++ " \\\n".data,
      " --kernel_offset ".data ++ hexAlt h.kernel_addr ++ " \\\n".data,
      " --ramdisk_offset ".data ++ hexAlt h.ramdisk_addr ++ " \\\n".data,
      " --second_offset ".data ++ hexAlt h.second_addr ++ " \\\n".data,
      " --os_version \"".data ++ (getOsVersion h.os_version).1 ++ "\" \\\n".data,
      " --os_patch_level \"".data ++ (getOsVersion h.os_version).2 ++ "\" \\\n".data,
      " --tags_offset ".data ++ hexAlt h.tags_addr ++ " \\\n".data,
      " --board \"".data ++ cString h.name 16 ++ "\" \\\n".data,
      " --pagesize ".data ++ hexAlt h.page_size ++ " \\\n".data,
      " --output \"".data ++ dests.getD 4 [] ++ "\"\n".data]

/-- C9: for every valid header, the emitted rebuild script contains the
second-stage flag line (" --second" with the second-stage path) if and only
if second_size > 0; in particular when second_size = 0 the script omits the
flag. (The " --second_offset" line is always present but is a different
chunk.) -/
theorem writeMakeScript_second_flag_iff (h : boot_img_hdr)
    (hvalid : validateHeader h = .ok h) :
    (" --second \"secondary.img\" \\\n".data ∈
      writeMakeScriptChunks "mkbootimg".data h) ↔ h.second_size ≠ 0 := by
  constructor
  · intro hmem
    by_contra h0
    have h0 : h.second_size = 0 := by omega
    unfold writeMakeScriptChunks at hmem
    rw [if_neg (by simp [h0])] at hmem
    simp only [List.append_nil, List.nil_append, List.cons_append,
      List.mem_cons, List.not_mem_nil, or_false] at hmem
    rcases hmem with hh | hh | hh | hh | hh | hh | hh | hh | hh | hh | hh
      | hh | hh | hh | hh | hh
    all_goals simp at hh
  · intro hne
    unfold writeMakeScriptChunks
    rw [if_pos hne]
    exact List.mem_append_left _
      (List.mem_append_right _ (by simp only [List.mem_singleton]; decide))

/-- A valid header with a nonzero second_size. -/
def hdrWithSecond : boot_img_hdr := { hdrScenario with second_size := 512 }

/-- Witness for C9: the header with second_size = 512 yields a script
containing the second flag; the scenario header (second_size = 0) yields one
without it. -/
theorem writeMakeScript_second_flag_iff_witness :
    (" --second \"secondary.img\" \\\n".data ∈
      writeMakeScriptChunks "mkbootimg".data hdrWithSecond) ∧
    (" --second \"secondary.img\" \\\n".data ∉
      writeMakeScriptChunks "mkbootimg".data hdrScenario) :=
  ⟨(writeMakeScript_second_flag_iff hdrWithSecond rfl).mpr (by decide),
   fun hmem =>
     absurd ((writeMakeScript_second_flag_iff hdrScenario rfl).mp hmem)
       (by decide)⟩

/-- The extraction call of the main loop (lines 436-453) for the payload
slices dest ∈ {kernel = 1, ramdisk = 2, second = 3}: a slice whose size map
entry is 0 is skipped (no destination file is created — modelled as none);
otherwise writeSlice runs with blockSize = page_size, byteOffset =
offsetMap[dest] (the page-aligned offset) and byteCount = sizeMap[dest] (the
unrounded declared size). -/
def extractSlice (src : List Nat) (h : boot_img_hdr) (d : Nat) :
    Option (List Nat) :=
  if (getSizeMap h).getD d 0 = 0 then none
  else writeSlice src h.page_size ((getOffsetMap h).getD d 0)
    ((getSizeMap h).getD d 0)

/-- C10: for every header and payload slice index d in {1, 2, 3} with a
nonzero size entry, a positive page size, and a source covering the slice,
the extracted artifact is exactly source[offset, offset + size) where offset
is the page-aligned offset map entry and size the unrounded size map entry —
the artifact holds exactly the declared size in bytes, never the page-rounded
region. -/
theorem extractSlice_exact (src : List Nat) (h : boot_img_hdr) (d : Nat)
    (hd : 1 ≤ d ∧ d ≤ 3) (hp : 0 < h.page_size)
    (hnz : (getSizeMap h).getD d 0 ≠ 0)
    (hsrc : (getOffsetMap h).getD d 0 + (getSizeMap h).getD d 0 ≤ src.length) :
    extractSlice src h d =
      some ((src.drop ((getOffsetMap h).getD d 0)).take ((getSizeMap h).getD d 0)) ∧
    ((src.drop ((getOffsetMap h).getD d 0)).take ((getSizeMap h).getD d 0)).length
      = (getSizeMap h).getD d 0 := by
  refine ⟨?_, ?_⟩
  · unfold extractSlice
    rw [if_neg hnz]
    exact writeSlice_eq src h.page_size _ _ hp hsrc
  · simp only [List.length_take, List.length_drop]
    omega

/-- A small valid header: page_size 2048, kernel_size 3. -/
def hdrSmall : boot_img_hdr :=
  { magic := BOOT_MAGIC_BYTES, kernel_size := 3, kernel_addr := 0,
    ramdisk_size := 1, ramdisk_addr := 0, second_size := 0, second_addr := 0,
    tags_addr := 0, page_size := 2048, name := [], cmdline := [], id := [],
    extra_cmdline := [], os_version := 0 }

/-- Witness for C10: the kernel slice (d = 1) of hdrSmall over a 2051-byte
source is exactly the 3 declared bytes starting at the page-aligned offset
2048. -/
theorem extractSlice_exact_witness :
    extractSlice (List.replicate 2051 7) hdrSmall 1 =
      some (((List.replicate 2051 7).drop
          ((getOffsetMap hdrSmall).getD 1 0)).take
          ((getSizeMap hdrSmall).getD 1 0)) ∧
    (((List.replicate 2051 7).drop ((getOffsetMap hdrSmall).getD 1 0)).take
        ((getSizeMap hdrSmall).getD 1 0)).length
      = (getSizeMap hdrSmall).getD 1 0 :=
  extractSlice_exact (List.replicate 2051 7) hdrSmall 1 (by decide) (by decide)
    (by decide) (by simp only [List.length_replicate]; decide)
